import Mathlib

/-
Verification of the B-spline camera model (`central_model.py`, class
`CentralModel`) against its natural-language specification.

Scalars are embedded as exact rationals (ℚ).  Knot vectors are embedded in two
forms: as total functions ℕ → ℚ (the idealized semantics used by `B` and
`CentralModel.sample`), and as concrete lists with bounds-checked access (the
`Blist` / `CentralModel.sampleChk` evaluators, which return `none` exactly when
the Python code would raise an `IndexError` on a knot access).
-/

/-- A 3-dimensional vector of rationals (one control point / one sample). -/
abbrev Vec3 : Type := ℚ × ℚ × ℚ

/-- Componentwise scalar multiplication (`np.multiply(aij, s)`). -/
def smul3 (c : ℚ) (w : Vec3) : Vec3 := (c * w.1, c * w.2.1, c * w.2.2)

/-- The basis function `CentralModel.__B__(i, k, t, x)` (central_model.py,
lines 52-86), over a totalized knot vector `t : ℕ → ℚ`.  The base case is the
right-open interval test of lines 62-66; the recursive case mirrors lines
69-86, where a zero denominator causes both that numerator and denominator to
be replaced by 1 before dividing. -/
def B (t : ℕ → ℚ) : ℕ → ℕ → ℚ → ℚ
  | i, 0, x => if t i ≤ x ∧ x < t (i + 1) then 1 else 0
  | i, k + 1, x =>
    let term1a := x - t i
    let term1b := t (i + k + 1) - t i
    let term1c := B t i k x
    let term1a := if term1b = 0 then 1 else term1a
    let term1b := if term1b = 0 then 1 else term1b
    let term2a := t (i + k + 2) - x
    let term2b := t (i + k + 2) - t (i + 1)
    let term2c := B t (i + 1) k x
    let term2a := if term2b = 0 then 1 else term2a
    let term2b := if term2b = 0 then 1 else term2b
    term1a / term1b * term1c + term2a / term2b * term2c

/-- Modelled from the spec: `knot_generators.open_uniform(count, order)` is not
in `src/`; per §4.1 it returns a non-decreasing sequence of length
`count + order + 2` whose first and last `order + 1` entries are clamped to the
domain bounds 0 and 1, with uniformly spaced interior knots.  This is its
natural totalization as a function of the index. -/
def openUniformF (count ord : ℕ) (j : ℕ) : ℚ :=
  if j ≤ ord then 0
  else if count + 1 ≤ j then 1
  else ((j : ℚ) - (ord : ℚ)) / ((count : ℚ) + 1 - (ord : ℚ))

/-- Modelled from the spec: `knot_generators.uniform(count, order)` is not in
`src/`; per §4.1 it returns a uniformly spaced non-decreasing sequence of the
same length `count + order + 2`, without clamping.  Totalized as a function of
the index. -/
def uniformF (count ord : ℕ) (j : ℕ) : ℚ :=
  (j : ℚ) / ((count : ℚ) + (ord : ℚ) + 1)

/-- The concrete array returned by the modelled `open_uniform` strategy:
length `count + order + 2`. -/
def openUniformList (count ord : ℕ) : List ℚ :=
  (List.range (count + ord + 2)).map (openUniformF count ord)

/-- The concrete array returned by the modelled `uniform` strategy:
length `count + order + 2`. -/
def uniformList (count ord : ℕ) : List ℚ :=
  (List.range (count + ord + 2)).map (uniformF count ord)

/-- The knot array chosen by `CentralModel.__init__` (lines 42-48) for a given
knot method and control-point count. -/
def listKnots (knot_method : String) (count ord : ℕ) : List ℚ :=
  if knot_method = "open_uniform" then openUniformList count ord
  else uniformList count ord

/-- The state of a `CentralModel` object after `__init__` (lines 29-50):
image/grid dimensions, control-point counts `n`, `m`, the control-point grid
`a`, the order, the two knot vectors `th`/`tv` (idealized as total functions),
and the truncation threshold. -/
structure CentralModel where
  image_width : ℚ
  image_height : ℚ
  grid_width : ℚ
  grid_height : ℚ
  n : ℕ
  m : ℕ
  a : ℕ → ℕ → Vec3
  order : ℕ
  th : ℕ → ℚ
  tv : ℕ → ℚ
  min_basis_value : ℚ

/-- The `control_points` argument: a numpy array abstracted as its shape plus
an indexing function. -/
structure NdArray where
  shape : List ℕ
  data : ℕ → ℕ → ℕ → ℚ

/-- `CentralModel.__init__` (lines 13-50).  The four `assert` statements of
lines 23-27 become error results; on success the constructed object is
returned.  Tuple-ness of the dimension arguments is modelled as the length-2
check on a list; `end_divergence` is accepted and unused, as in the source. -/
def construct (image_dimensions grid_dimensions : List ℚ) (control_points : NdArray)
    (ord : ℕ) (knot_method : String) (min_basis_value : ℚ) (end_divergence : ℚ) :
    Except String CentralModel :=
  if knot_method = "open_uniform" ∨ knot_method = "uniform" then
    if image_dimensions.length = 2 then
      if grid_dimensions.length = 2 then
        if control_points.shape.length = 3 ∧ control_points.shape.getD 2 0 = 3 then
          if ord < control_points.shape.getD 0 0 ∧ ord < control_points.shape.getD 1 0 then
            Except.ok
              { image_width := image_dimensions.getD 0 0
                image_height := image_dimensions.getD 1 0
                grid_width := grid_dimensions.getD 0 0
                grid_height := grid_dimensions.getD 1 0
                n := control_points.shape.getD 0 0
                m := control_points.shape.getD 1 0
                a := fun i j =>
                  (control_points.data i j 0, control_points.data i j 1,
                    control_points.data i j 2)
                order := ord
                th := if knot_method = "open_uniform" then
                    openUniformF (control_points.shape.getD 0 0) ord
                  else uniformF (control_points.shape.getD 0 0) ord
                tv := if knot_method = "open_uniform" then
                    openUniformF (control_points.shape.getD 1 0) ord
                  else uniformF (control_points.shape.getD 1 0) ord
                min_basis_value := min_basis_value }
          else Except.error "order must be smaller than grid size."
        else Except.error "grid must be a 3-dimensional numpy array with a depth of 3."
      else Except.error "grid_dimensions must be a 2-dimensional tuple."
    else Except.error "image_dimensions must be a 2-dimensional tuple."
  else Except.error "knot method should be one of the implemented methods."

/-- `CentralModel.sample` (lines 88-114): coordinate normalization (lines
95-99), the two basis sweeps with the crossed axis/knot-vector pairing of the
source (lines 101-102: `Bh` against `tv`, `Bv` against `th`), the truncation
filter (lines 105-106) and the accumulation loop (lines 108-114). -/
def CentralModel.sample (cm : CentralModel) (u v : ℚ) : Vec3 :=
  let u' := (u + (cm.grid_width - cm.image_width) / 2) / (cm.grid_width - 1)
  let v' := (v + (cm.grid_height - cm.image_height) / 2) / (cm.grid_height - 1)
  let Bh := fun i => B cm.tv i cm.order u'
  let Bv := fun j => B cm.th j cm.order v'
  let vi := (List.range cm.n).filter fun i => decide (cm.min_basis_value ≤ Bh i)
  let vj := (List.range cm.m).filter fun j => decide (cm.min_basis_value ≤ Bv j)
  vi.foldl
    (fun res i => vj.foldl (fun res j => res + smul3 (Bh i * Bv j) (cm.a i j)) res)
    (0, 0, 0)

/-- Right-open base case of `B`, as a rewriting equation. -/
lemma B_zero (t : ℕ → ℚ) (i : ℕ) (x : ℚ) :
    B t i 0 x = if t i ≤ x ∧ x < t (i + 1) then 1 else 0 := rfl

/-- Recursive case of `B`, with the degenerate-denominator replacement folded
into the two fractional coefficients. -/
lemma B_succ (t : ℕ → ℚ) (i k : ℕ) (x : ℚ) :
    B t i (k + 1) x =
      (if t (i + k + 1) - t i = 0 then B t i k x
       else (x - t i) / (t (i + k + 1) - t i) * B t i k x)
      + (if t (i + k + 2) - t (i + 1) = 0 then B t (i + 1) k x
         else (t (i + k + 2) - x) / (t (i + k + 2) - t (i + 1)) * B t (i + 1) k x) := by
  show (let term1a := x - t i
        let term1b := t (i + k + 1) - t i
        let term1c := B t i k x
        let term1a := if term1b = 0 then 1 else term1a
        let term1b := if term1b = 0 then 1 else term1b
        let term2a := t (i + k + 2) - x
        let term2b := t (i + k + 2) - t (i + 1)
        let term2c := B t (i + 1) k x
        let term2a := if term2b = 0 then 1 else term2a
        let term2b := if term2b = 0 then 1 else term2b
        term1a / term1b * term1c + term2a / term2b * term2c) = _
  by_cases h1 : t (i + k + 1) - t i = 0 <;>
    by_cases h2 : t (i + k + 2) - t (i + 1) = 0 <;>
      simp only [h1, h2, if_true, if_false, if_pos, if_neg, not_false_iff] <;> norm_num

/-- Outside the support on the left: below `t i`, basis `i` of any order
vanishes (knots non-decreasing). -/
lemma left_support (t : ℕ → ℚ) (ht : Monotone t) (x : ℚ) :
    ∀ k i, x < t i → B t i k x = 0 := by
  intro k
  induction k with
  | zero =>
    intro i hx
    rw [B_zero, if_neg]
    rintro ⟨h1, _⟩
    exact absurd hx (not_lt.mpr h1)
  | succ k ih =>
    intro i hx
    rw [B_succ, ih i hx, ih (i + 1) (lt_of_lt_of_le hx (ht (Nat.le_succ i)))]
    split <;> split <;> ring

/-- Outside the support on the right: at or above `t (i + k + 1)`, basis `i`
of order `k` vanishes (knots non-decreasing). -/
lemma right_support (t : ℕ → ℚ) (ht : Monotone t) (x : ℚ) :
    ∀ k i, t (i + k + 1) ≤ x → B t i k x = 0 := by
  intro k
  induction k with
  | zero =>
    intro i hx
    rw [B_zero, if_neg]
    rintro ⟨_, h2⟩
    exact absurd hx (not_le.mpr h2)
  | succ k ih =>
    intro i hx
    have h1 : t (i + k + 1) ≤ x :=
      le_trans (ht (by omega : i + k + 1 ≤ i + (k + 1) + 1)) hx
    have h2 : t ((i + 1) + k + 1) ≤ x :=
      le_of_le_of_eq (le_trans (le_of_eq (congrArg t (by omega))) hx) rfl
    rw [B_succ, ih i h1, ih (i + 1) h2]
    split <;> split <;> ring

/-- With non-decreasing knots every basis value is non-negative. -/
lemma B_nonneg (t : ℕ → ℚ) (ht : Monotone t) (x : ℚ) :
    ∀ k i, 0 ≤ B t i k x := by
  intro k
  induction k with
  | zero =>
    intro i
    rw [B_zero]
    split <;> norm_num
  | succ k ih =>
    intro i
    rw [B_succ]
    have hterm1 : 0 ≤ (if t (i + k + 1) - t i = 0 then B t i k x
        else (x - t i) / (t (i + k + 1) - t i) * B t i k x) := by
      split
      · exact ih i
      · rename_i hne
        rcases le_or_lt (t i) x with hx | hx
        · have hmono : t i ≤ t (i + k + 1) := ht (by omega)
          have hpos : 0 < t (i + k + 1) - t i :=
            lt_of_le_of_ne (by linarith) (Ne.symm hne)
          exact mul_nonneg (div_nonneg (by linarith) (le_of_lt hpos)) (ih i)
        · rw [left_support t ht x k i hx]
          ring_nf
          exact le_refl 0
    have hterm2 : 0 ≤ (if t (i + k + 2) - t (i + 1) = 0 then B t (i + 1) k x
        else (t (i + k + 2) - x) / (t (i + k + 2) - t (i + 1)) * B t (i + 1) k x) := by
      split
      · exact ih (i + 1)
      · rename_i hne
        rcases le_or_lt x (t (i + k + 2)) with hx | hx
        · have hmono : t (i + 1) ≤ t (i + k + 2) := ht (by omega)
          have hpos : 0 < t (i + k + 2) - t (i + 1) :=
            lt_of_le_of_ne (by linarith) (Ne.symm hne)
          exact mul_nonneg (div_nonneg (by linarith) (le_of_lt hpos)) (ih (i + 1))
        · have hz : B t (i + 1) k x = 0 := by
            apply right_support t ht x k (i + 1)
            have : (i + 1) + k + 1 = i + k + 2 := by omega
            rw [this]
            exact le_of_lt hx
          rw [hz]
          ring_nf
          exact le_refl 0
    linarith

/-- The modelled `open_uniform` knot function is non-decreasing. -/
lemma openUniformF_monotone (count ord : ℕ) : Monotone (openUniformF count ord) := by
  apply monotone_nat_of_le_succ
  intro j
  unfold openUniformF
  rcases le_or_lt (j + 1) ord with hj1 | hj1
  · rw [if_pos (by omega), if_pos hj1]
  · rcases le_or_lt j ord with hj0 | hj0
    · -- j = ord : left value is 0, right value is non-negative
      rw [if_pos hj0, if_neg (by omega)]
      rcases le_or_lt (count + 1) (j + 1) with hj2 | hj2
      · rw [if_pos hj2]
        norm_num
      · rw [if_neg (by omega)]
        have hden : (0 : ℚ) < (count : ℚ) + 1 - (ord : ℚ) := by
          have : (ord : ℚ) < (count : ℚ) + 1 := by exact_mod_cast (by omega : ord < count + 1)
          linarith
        have hnum : (0 : ℚ) ≤ (j : ℚ) + 1 - (ord : ℚ) := by
          have : (ord : ℚ) < (j : ℚ) + 1 := by exact_mod_cast (by omega : ord < j + 1)
          linarith
        have := div_nonneg hnum (le_of_lt hden)
        push_cast
        linarith [this]
    · -- ord < j
      rcases le_or_lt (count + 1) j with hj2 | hj2
      · rw [if_neg (by omega), if_pos hj2, if_neg (by omega), if_pos (by omega)]
      · have hden : (0 : ℚ) < (count : ℚ) + 1 - (ord : ℚ) := by
          have : (ord : ℚ) < (count : ℚ) + 1 := by exact_mod_cast (by omega : ord < count + 1)
          linarith
        rcases le_or_lt (count + 1) (j + 1) with hj3 | hj3
        · -- j = count : interior value at j is at most the clamp value 1
          rw [if_neg (by omega), if_neg (by omega), if_neg (by omega), if_pos hj3]
          rw [div_le_one hden]
          have : (j : ℚ) ≤ (count : ℚ) := by exact_mod_cast (by omega : j ≤ count)
          linarith
        · -- both interior
          rw [if_neg (by omega), if_neg (by omega), if_neg (by omega), if_neg (by omega)]
          rw [div_le_div_iff hden hden]
          have : (j : ℚ) ≤ (j : ℚ) + 1 := by linarith
          push_cast
          nlinarith [hden]

/-- The modelled `uniform` knot function is non-decreasing. -/
lemma uniformF_monotone (count ord : ℕ) : Monotone (uniformF count ord) := by
  apply monotone_nat_of_le_succ
  intro j
  unfold uniformF
  have hden : (0 : ℚ) < (count : ℚ) + (ord : ℚ) + 1 := by positivity
  rw [div_le_div_iff hden hden]
  push_cast
  nlinarith [hden]

/-- Folding vector additions over a list is adding the list sum. -/
lemma foldl_add_eq_sum (g : ℕ → Vec3) :
    ∀ (l : List ℕ) (r : Vec3), l.foldl (fun res j => res + g j) r = r + (l.map g).sum := by
  intro l
  induction l with
  | nil => intro r; simp
  | cons a l ih =>
    intro r
    simp only [List.foldl_cons, List.map_cons, List.sum_cons, ih, add_assoc]

/-- The nested accumulation loop of `sample` is a nested list sum. -/
lemma foldl_nested_eq_sum (f : ℕ → ℕ → Vec3) (vj : List ℕ) :
    ∀ (vi : List ℕ) (r : Vec3),
      vi.foldl (fun res i => vj.foldl (fun res j => res + f i j) res) r
        = r + (vi.map (fun i => ((vj.map (f i)).sum))).sum := by
  intro vi
  induction vi with
  | nil => intro r; simp
  | cons a l ih =>
    intro r
    simp only [List.foldl_cons, List.map_cons, List.sum_cons, ih, foldl_add_eq_sum, add_assoc]

/-- Summing a mapped, filtered index range as a `Finset` sum. -/
lemma filter_range_map_sum (n : ℕ) (p : ℕ → Prop) [DecidablePred p] (f : ℕ → Vec3) :
    ((((List.range n).filter fun i => decide (p i))).map f).sum
      = ∑ i in (Finset.range n).filter p, f i := by
  induction n with
  | zero => simp
  | succ n ih =>
    rw [List.range_succ, List.filter_append, List.map_append, List.sum_append, ih,
      Finset.range_succ, Finset.filter_insert]
    by_cases hp : p n
    · rw [if_pos hp, Finset.sum_insert (by simp)]
      simp [hp, add_comm]
    · rw [if_neg hp]
      simp [hp]

/-- `sample` as a truncated double `Finset` sum (shared shape lemma). -/
lemma sample_eq_sum (cm : CentralModel) (u v : ℚ) :
    cm.sample u v =
      ∑ i in (Finset.range cm.n).filter
          (fun i => cm.min_basis_value ≤
            B cm.tv i cm.order ((u + (cm.grid_width - cm.image_width) / 2) / (cm.grid_width - 1))),
        ∑ j in (Finset.range cm.m).filter
            (fun j => cm.min_basis_value ≤
              B cm.th j cm.order ((v + (cm.grid_height - cm.image_height) / 2) / (cm.grid_height - 1))),
          smul3
            (B cm.tv i cm.order ((u + (cm.grid_width - cm.image_width) / 2) / (cm.grid_width - 1))
              * B cm.th j cm.order ((v + (cm.grid_height - cm.image_height) / 2) / (cm.grid_height - 1)))
            (cm.a i j) := by
  unfold CentralModel.sample
  rw [foldl_nested_eq_sum]
  rw [show ((0, 0, 0) : Vec3) = 0 from rfl, zero_add]
  rw [filter_range_map_sum]
  refine Finset.sum_congr rfl (fun i _ => ?_)
  rw [filter_range_map_sum]

/-- What a successful `__init__` guarantees about the resulting object. -/
lemma construct_ok_spec (img grd : List ℚ) (cp : NdArray) (ord : ℕ) (km : String)
    (mbv ed : ℚ) (cm : CentralModel)
    (hok : construct img grd cp ord km mbv ed = Except.ok cm) :
    cm.order = ord ∧ cm.min_basis_value = mbv
      ∧ cm.n = cp.shape.getD 0 0 ∧ cm.m = cp.shape.getD 1 0
      ∧ cm.th = (if km = "open_uniform" then openUniformF cm.n cm.order
          else uniformF cm.n cm.order)
      ∧ cm.tv = (if km = "open_uniform" then openUniformF cm.m cm.order
          else uniformF cm.m cm.order)
      ∧ Monotone cm.th ∧ Monotone cm.tv := by
  unfold construct at hok
  split_ifs at hok with h1 h2 h3 h4 h5 h6 <;>
    first
      | exact Except.noConfusion hok
      | (rw [Except.ok.injEq] at hok; subst hok;
         exact ⟨rfl, rfl, rfl, rfl, by rw [if_pos h6], by rw [if_pos h6],
           openUniformF_monotone _ _, openUniformF_monotone _ _⟩)
      | (rw [Except.ok.injEq] at hok; subst hok;
         exact ⟨rfl, rfl, rfl, rfl, by rw [if_neg h6], by rw [if_neg h6],
           uniformF_monotone _ _, uniformF_monotone _ _⟩)

/-- The two fractional coefficients multiplying `B t i k x` in adjacent terms
of the Cox-de Boor expansion sum to 1 whenever that basis value is non-zero. -/
lemma step_coeff (t : ℕ → ℚ) (ht : Monotone t) (x : ℚ) (i k : ℕ) :
    ((if t (i + k + 1) - t i = 0 then 1 else (x - t i) / (t (i + k + 1) - t i))
      + (if t (i + k + 1) - t i = 0 then 1
          else (t (i + k + 1) - x) / (t (i + k + 1) - t i))) * B t i k x
      = B t i k x := by
  split_ifs with h
  · have hb : B t i k x = 0 := by
      rcases le_or_lt (t i) x with hx | hx
      · exact right_support t ht x k i (by linarith)
      · exact left_support t ht x k i hx
    rw [hb]
    ring
  · have : (x - t i) / (t (i + k + 1) - t i) + (t (i + k + 1) - x) / (t (i + k + 1) - t i)
        = 1 := by
      field_simp
    rw [this, one_mul]

/-- Local partition of unity: over a span `[t (a+k), t (a+k+1))`, the `k+1`
order-`k` basis functions whose supports meet the span sum to 1. -/
lemma partition_shift (t : ℕ → ℚ) (ht : Monotone t) (x : ℚ) :
    ∀ k a, t (a + k) ≤ x → x < t (a + k + 1) →
      ∑ r in Finset.range (k + 1), B t (a + r) k x = 1 := by
  intro k
  induction k with
  | zero =>
    intro a h1 h2
    rw [Finset.sum_range_one, B_zero, if_pos]
    exact ⟨h1, h2⟩
  | succ k ih =>
    intro a h1 h2
    have expand : ∑ r in Finset.range (k + 2), B t (a + r) (k + 1) x
        = ∑ r in Finset.range (k + 2),
            ((if t ((a + r) + k + 1) - t (a + r) = 0 then B t (a + r) k x
              else (x - t (a + r)) / (t ((a + r) + k + 1) - t (a + r)) * B t (a + r) k x))
          + ∑ r in Finset.range (k + 2),
            ((if t ((a + r) + k + 2) - t ((a + r) + 1) = 0 then B t ((a + r) + 1) k x
              else (t ((a + r) + k + 2) - x) / (t ((a + r) + k + 2) - t ((a + r) + 1))
                * B t ((a + r) + 1) k x)) := by
      rw [← Finset.sum_add_distrib]
      exact Finset.sum_congr rfl (fun r _ => B_succ t (a + r) k x)
    rw [expand, Finset.sum_range_succ' _ (k + 1), Finset.sum_range_succ _ (k + 1)]
    have hfirst0 : (if t ((a + 0) + k + 1) - t (a + 0) = 0 then B t (a + 0) k x
        else (x - t (a + 0)) / (t ((a + 0) + k + 1) - t (a + 0)) * B t (a + 0) k x) = 0 := by
      have hz : B t (a + 0) k x = 0 := by
        apply right_support t ht x k (a + 0)
        have he : (a + 0) + k + 1 = a + (k + 1) := by omega
        rw [he]
        exact h1
      rw [hz]
      split <;> ring
    have hlastz : (if t ((a + (k + 1)) + k + 2) - t ((a + (k + 1)) + 1) = 0
          then B t ((a + (k + 1)) + 1) k x
          else (t ((a + (k + 1)) + k + 2) - x)
            / (t ((a + (k + 1)) + k + 2) - t ((a + (k + 1)) + 1))
            * B t ((a + (k + 1)) + 1) k x) = 0 := by
      have hz : B t ((a + (k + 1)) + 1) k x = 0 := by
        apply left_support t ht x k
        have he : a + (k + 1) + 1 = a + (k + 1) + 1 := rfl
        exact lt_of_lt_of_le h2 (ht (by omega))
      rw [hz]
      split <;> ring
    rw [hfirst0, hlastz, add_zero, add_zero]
    rw [← Finset.sum_add_distrib]
    have hcongr : ∀ r ∈ Finset.range (k + 1),
        ((if t ((a + (r + 1)) + k + 1) - t (a + (r + 1)) = 0 then B t (a + (r + 1)) k x
            else (x - t (a + (r + 1))) / (t ((a + (r + 1)) + k + 1) - t (a + (r + 1)))
              * B t (a + (r + 1)) k x)
          + (if t ((a + r) + k + 2) - t ((a + r) + 1) = 0 then B t ((a + r) + 1) k x
              else (t ((a + r) + k + 2) - x) / (t ((a + r) + k + 2) - t ((a + r) + 1))
                * B t ((a + r) + 1) k x))
          = B t ((a + 1) + r) k x := by
      intro r _
      have e1 : (a + (r + 1)) = (a + 1) + r := by omega
      have e2 : (a + r) + 1 = (a + 1) + r := by omega
      have e4 : (a + r) + k + 2 = ((a + 1) + r) + k + 1 := by omega
      rw [e1, e2, e4]
      have hsc := step_coeff t ht x ((a + 1) + r) k
      split_ifs with hh1
      · rw [if_pos hh1, if_pos hh1] at hsc
        linarith [hsc]
      · rw [if_neg hh1, if_neg hh1, add_mul] at hsc
        linarith [hsc]
    rw [Finset.sum_congr rfl hcongr]
    apply ih (a + 1)
    · have he : (a + 1) + k = a + (k + 1) := by omega
      rw [he]
      exact h1
    · have he : (a + 1) + k + 1 = a + (k + 1) + 1 := by omega
      rw [he]
      exact h2

/-- Global partition of unity over the `count` basis functions the sampler
sums, valid whenever `x` lies in a knot span `[t j, t (j+1))` with
`order ≤ j < count`. -/
lemma partition_global (t : ℕ → ℚ) (ht : Monotone t) (count ord j : ℕ) (x : ℚ)
    (h1 : ord ≤ j) (h2 : j < count) (h3 : t j ≤ x) (h4 : x < t (j + 1)) :
    ∑ i in Finset.range count, B t i ord x = 1 := by
  have hsub : Finset.Ico (j - ord) (j + 1) ⊆ Finset.range count := by
    intro i hi
    rw [Finset.mem_Ico] at hi
    rw [Finset.mem_range]
    omega
  have hvanish : ∀ i ∈ Finset.range count, i ∉ Finset.Ico (j - ord) (j + 1) →
      B t i ord x = 0 := by
    intro i _ hnotin
    rw [Finset.mem_Ico, not_and_or, not_le, not_lt] at hnotin
    rcases hnotin with hlo | hhi
    · apply right_support t ht x ord i
      exact le_trans (ht (by omega : i + ord + 1 ≤ j)) h3
    · apply left_support t ht x ord i
      exact lt_of_lt_of_le h4 (ht hhi)
  rw [← Finset.sum_subset hsub hvanish, Finset.sum_Ico_eq_sum_range]
  have hcard : j + 1 - (j - ord) = ord + 1 := by omega
  rw [hcard]
  have hcongr : ∀ r ∈ Finset.range (ord + 1),
      B t ((j - ord) + r) ord x = B t ((j - ord) + r) ord x := fun _ _ => rfl
  apply partition_shift t ht x ord (j - ord)
  · have he : (j - ord) + ord = j := by omega
    rw [he]
    exact h3
  · have he : (j - ord) + ord + 1 = j + 1 := by omega
    rw [he]
    exact h4

/-- `__B__` with bounds-checked knot access: `none` models the `IndexError`
Python raises on an out-of-range `t[...]`.  Access order follows the source
(lines 62-86), including the short-circuit of the chained comparison
`t[i] <= x < t[i + 1]` in the base case. -/
def Blist (t : List ℚ) : ℕ → ℕ → ℚ → Option ℚ
  | i, 0, x => do
    let ti ← t.get? i
    if ti ≤ x then do
      let ti1 ← t.get? (i + 1)
      pure (if x < ti1 then 1 else 0)
    else
      pure 0
  | i, k + 1, x => do
    let ti ← t.get? i
    let tik ← t.get? (i + k + 1)
    let term1c ← Blist t i k x
    let term1a := if tik - ti = 0 then 1 else x - ti
    let term1b := if tik - ti = 0 then 1 else tik - ti
    let tik1 ← t.get? (i + k + 2)
    let ti1 ← t.get? (i + 1)
    let term2c ← Blist t (i + 1) k x
    let term2a := if tik1 - ti1 = 0 then 1 else tik1 - x
    let term2b := if tik1 - ti1 = 0 then 1 else tik1 - ti1
    pure (term1a / term1b * term1c + term2a / term2b * term2c)

/-- `sample` with bounds-checked knot access against the concrete knot arrays
`thL`, `tvL`: `none` models an `IndexError` escaping `sample`. -/
def CentralModel.sampleChk (cm : CentralModel) (thL tvL : List ℚ) (u v : ℚ) :
    Option Vec3 := do
  let u' := (u + (cm.grid_width - cm.image_width) / 2) / (cm.grid_width - 1)
  let v' := (v + (cm.grid_height - cm.image_height) / 2) / (cm.grid_height - 1)
  let BhL ← (List.range cm.n).mapM fun i => Blist tvL i cm.order u'
  let BvL ← (List.range cm.m).mapM fun j => Blist thL j cm.order v'
  let vi := (List.range cm.n).filter fun i => decide (cm.min_basis_value ≤ BhL.getD i 0)
  let vj := (List.range cm.m).filter fun j => decide (cm.min_basis_value ≤ BvL.getD j 0)
  pure (vi.foldl
    (fun res i =>
      vj.foldl (fun res j => res + smul3 (BhL.getD i 0 * BvL.getD j 0) (cm.a i j)) res)
    (0, 0, 0))

/-- In-bounds indexing as `getD`. -/
lemma get?_eq_some_getD (l : List ℚ) (i : ℕ) (h : i < l.length) :
    l.get? i = some (l.getD i 0) := by
  rw [List.getD_eq_getD_get?]
  cases hh : l.get? i with
  | none => exact absurd (List.get?_eq_none.mp hh) (by omega)
  | some b => rfl

/-- `B` reads the knot vector only at indices `i .. i + k + 1`. -/
lemma B_congr_window (x : ℚ) :
    ∀ k i (t t' : ℕ → ℚ), (∀ j, i ≤ j → j ≤ i + k + 1 → t j = t' j) →
      B t i k x = B t' i k x := by
  intro k
  induction k with
  | zero =>
    intro i t t' h
    rw [B_zero, B_zero, h i (le_refl i) (by omega), h (i + 1) (by omega) (by omega)]
  | succ k ih =>
    intro i t t' h
    rw [B_succ, B_succ, h i (le_refl i) (by omega), h (i + 1) (by omega) (by omega),
      h (i + k + 1) (by omega) (by omega), h (i + k + 2) (by omega) (by omega),
      ih i t t' (fun j hj1 hj2 => h j hj1 (by omega)),
      ih (i + 1) t t' (fun j hj1 hj2 => h j (by omega) (by omega))]

/-- When every access is in bounds, the checked evaluator computes the
idealized basis value of the `getD`-totalized knots. -/
lemma Blist_eq_B (t : List ℚ) (x : ℚ) :
    ∀ k i, i + k + 1 < t.length →
      Blist t i k x = some (B (fun j => t.getD j 0) i k x) := by
  intro k
  induction k with
  | zero =>
    intro i h
    rw [show Blist t i 0 x = (do
        let ti ← t.get? i
        if ti ≤ x then do
          let ti1 ← t.get? (i + 1)
          pure (if x < ti1 then 1 else 0)
        else
          pure 0) from rfl]
    rw [get?_eq_some_getD t i (by omega), get?_eq_some_getD t (i + 1) (by omega)]
    simp only [Option.bind_eq_bind, Option.some_bind, B_zero]
    by_cases h1 : t.getD i 0 ≤ x
    · rw [if_pos h1]
      by_cases h2 : x < t.getD (i + 1) 0
      · rw [if_pos h2, if_pos ⟨h1, h2⟩]; rfl
      · rw [if_neg h2, if_neg (fun hc => h2 hc.2)]; rfl
    · rw [if_neg h1, if_neg (fun hc => h1 hc.1)]; rfl
  | succ k ih =>
    intro i h
    rw [show Blist t i (k + 1) x = (do
        let ti ← t.get? i
        let tik ← t.get? (i + k + 1)
        let term1c ← Blist t i k x
        let term1a := if tik - ti = 0 then 1 else x - ti
        let term1b := if tik - ti = 0 then 1 else tik - ti
        let tik1 ← t.get? (i + k + 2)
        let ti1 ← t.get? (i + 1)
        let term2c ← Blist t (i + 1) k x
        let term2a := if tik1 - ti1 = 0 then 1 else tik1 - x
        let term2b := if tik1 - ti1 = 0 then 1 else tik1 - ti1
        pure (term1a / term1b * term1c + term2a / term2b * term2c)) from rfl]
    rw [get?_eq_some_getD t i (by omega), get?_eq_some_getD t (i + k + 1) (by omega),
      ih i (by omega)]
    simp only [Option.bind_eq_bind, Option.some_bind]
    rw [get?_eq_some_getD t (i + k + 2) (by omega), get?_eq_some_getD t (i + 1) (by omega),
      ih (i + 1) (by omega)]
    simp only [Option.bind_eq_bind, Option.some_bind, B_succ]
    refine congrArg some ?_
    by_cases h1 : t.getD (i + k + 1) 0 - t.getD i 0 = 0 <;>
      by_cases h2 : t.getD (i + k + 2) 0 - t.getD (i + 1) 0 = 0 <;>
        simp only [h1, h2, if_true, if_false, ite_true, ite_false, if_pos, if_neg,
          not_false_iff] <;> norm_num

/-- Reading back the `i`-th entry of a mapped index range. -/
lemma getD_map_range (n : ℕ) (f : ℕ → ℚ) (i : ℕ) (h : i < n) :
    ((List.range n).map f).getD i 0 = f i := by
  rw [List.getD_eq_getD_get?, List.get?_map, List.get?_range h]
  rfl

/-- A whole sweep of checked basis evaluations succeeds when each window is in
bounds, producing the list of idealized values. -/
lemma mapM_Blist (t : List ℚ) (k : ℕ) (x : ℚ) :
    ∀ (l : List ℕ), (∀ i ∈ l, i + k + 1 < t.length) →
      l.mapM (fun i => Blist t i k x)
        = some (l.map (fun i => B (fun j => t.getD j 0) i k x)) := by
  intro l
  induction l with
  | nil => intro _; rfl
  | cons a l ih =>
    intro h
    rw [List.mapM_cons, Blist_eq_B t x k a (h a (List.mem_cons_self a l)),
      ih (fun i hi => h i (List.mem_cons_of_mem a hi))]
    rfl

/-- Master bridge: when both crossed sweeps stay inside the concrete knot
arrays and those arrays agree with the idealized knot functions, the checked
sampler succeeds and returns exactly the idealized sample. -/
lemma sampleChk_eq_sample (cm : CentralModel) (thL tvL : List ℚ) (u v : ℚ)
    (hth : ∀ j, j < thL.length → thL.getD j 0 = cm.th j)
    (htv : ∀ j, j < tvL.length → tvL.getD j 0 = cm.tv j)
    (hn : ∀ i, i < cm.n → i + cm.order + 1 < tvL.length)
    (hm : ∀ j, j < cm.m → j + cm.order + 1 < thL.length) :
    cm.sampleChk thL tvL u v = some (cm.sample u v) := by
  unfold CentralModel.sampleChk CentralModel.sample
  dsimp only
  have hBu : ∀ i, i < cm.n →
      B (fun j => tvL.getD j 0) i cm.order
          ((u + (cm.grid_width - cm.image_width) / 2) / (cm.grid_width - 1))
        = B cm.tv i cm.order
            ((u + (cm.grid_width - cm.image_width) / 2) / (cm.grid_width - 1)) := by
    intro i hi
    apply B_congr_window _ cm.order i
    intro j hj1 hj2
    exact htv j (by have := hn i hi; omega)
  have hBv : ∀ j, j < cm.m →
      B (fun j' => thL.getD j' 0) j cm.order
          ((v + (cm.grid_height - cm.image_height) / 2) / (cm.grid_height - 1))
        = B cm.th j cm.order
            ((v + (cm.grid_height - cm.image_height) / 2) / (cm.grid_height - 1)) := by
    intro j hj
    apply B_congr_window _ cm.order j
    intro j' hj1 hj2
    exact hth j' (by have := hm j hj; omega)
  rw [mapM_Blist tvL cm.order _ (List.range cm.n)
      (fun i hi => hn i (List.mem_range.mp hi)),
    mapM_Blist thL cm.order _ (List.range cm.m)
      (fun j hj => hm j (List.mem_range.mp hj))]
  simp only [Option.bind_eq_bind, Option.some_bind]
  refine congrArg some ?_
  have hfilth : ((List.range cm.n).filter fun i => decide (cm.min_basis_value ≤
        ((List.range cm.n).map fun i' => B (fun j => tvL.getD j 0) i' cm.order
          ((u + (cm.grid_width - cm.image_width) / 2) / (cm.grid_width - 1))).getD i 0))
      = ((List.range cm.n).filter fun i => decide (cm.min_basis_value ≤
          B cm.tv i cm.order
            ((u + (cm.grid_width - cm.image_width) / 2) / (cm.grid_width - 1)))) := by
    apply List.filter_congr
    intro i hi
    have hilt := List.mem_range.mp hi
    rw [getD_map_range _ _ _ hilt, hBu i hilt]
  have hfiltv : ((List.range cm.m).filter fun j => decide (cm.min_basis_value ≤
        ((List.range cm.m).map fun j' => B (fun j'' => thL.getD j'' 0) j' cm.order
          ((v + (cm.grid_height - cm.image_height) / 2) / (cm.grid_height - 1))).getD j 0))
      = ((List.range cm.m).filter fun j => decide (cm.min_basis_value ≤
          B cm.th j cm.order
            ((v + (cm.grid_height - cm.image_height) / 2) / (cm.grid_height - 1)))) := by
    apply List.filter_congr
    intro j hj
    have hjlt := List.mem_range.mp hj
    rw [getD_map_range _ _ _ hjlt, hBv j hjlt]
  rw [hfilth, hfiltv, foldl_nested_eq_sum, foldl_nested_eq_sum]
  refine congrArg (_ + ·) ?_
  refine congrArg List.sum ?_
  apply List.map_congr_left
  intro i hi
  have hilt := List.mem_range.mp (List.mem_of_mem_filter hi)
  refine congrArg List.sum ?_
  apply List.map_congr_left
  intro j hj
  have hjlt := List.mem_range.mp (List.mem_of_mem_filter hj)
  rw [getD_map_range _ _ _ hilt, getD_map_range _ _ _ hjlt, hBu i hilt, hBv j hjlt]

/-- A numpy float64 value as produced by an elementwise division: either a
finite value, NaN, or a signed infinity.  Numpy float division by zero does
not raise; it emits a RuntimeWarning and produces NaN (for 0/0) or ±inf. -/
inductive NpFloat where
  | fin : ℝ → NpFloat
  | nan : NpFloat
  | inf : Bool → NpFloat

open Classical in
/-- Numpy's elementwise float division semantics. -/
noncomputable def npDiv (a b : ℝ) : NpFloat :=
  if b = 0 then (if a = 0 then NpFloat.nan else NpFloat.inf (decide (0 < a)))
  else NpFloat.fin (a / b)

/-- `np.linalg.norm(s)` for a 3-vector: the Euclidean norm. -/
noncomputable def npNorm (s : Vec3) : ℝ :=
  Real.sqrt (((s.1 : ℝ)) ^ 2 + ((s.2.1 : ℝ)) ^ 2 + ((s.2.2 : ℝ)) ^ 2)

/-- `CentralModel.sample_normalized` (lines 116-124): `s / np.linalg.norm(s)`,
elementwise with numpy division semantics. -/
noncomputable def CentralModel.sample_normalized (cm : CentralModel) (u v : ℚ) :
    NpFloat × NpFloat × NpFloat :=
  let s := cm.sample u v
  (npDiv ((s.1 : ℝ)) (npNorm s), npDiv ((s.2.1 : ℝ)) (npNorm s),
    npDiv ((s.2.2 : ℝ)) (npNorm s))

/-- Fuel-indexed evaluator for `__B__`: recursion depth is bounded by the
fuel, and the evaluation runs out of fuel (`none`) if the recursion were to
recurse deeper than the fuel allows. -/
def Bfuel : ℕ → (ℕ → ℚ) → ℕ → ℕ → ℚ → Option ℚ
  | 0, _, _, _, _ => none
  | fuel + 1, t, i, k, x =>
    match k with
    | 0 => some (if t i ≤ x ∧ x < t (i + 1) then 1 else 0)
    | k + 1 => do
      let term1c ← Bfuel fuel t i k x
      let term2c ← Bfuel fuel t (i + 1) k x
      let term1a := if t (i + k + 1) - t i = 0 then 1 else x - t i
      let term1b := if t (i + k + 1) - t i = 0 then 1 else t (i + k + 1) - t i
      let term2a := if t (i + k + 2) - t (i + 1) = 0 then 1 else t (i + k + 2) - x
      let term2b := if t (i + k + 2) - t (i + 1) = 0 then 1 else t (i + k + 2) - t (i + 1)
      pure (term1a / term1b * term1c + term2a / term2b * term2c)

/-- Each recursive call strictly decreases `k`, so any fuel exceeding `k`
suffices: the fuel-indexed evaluator never runs out and agrees with the total
function `B`. -/
lemma Bfuel_eq_B (t : ℕ → ℚ) (x : ℚ) :
    ∀ fuel k i, k < fuel → Bfuel fuel t i k x = some (B t i k x) := by
  intro fuel
  induction fuel with
  | zero => intro k i hk; omega
  | succ fuel ih =>
    intro k i hk
    match k with
    | 0 => rfl
    | k + 1 =>
      rw [show Bfuel (fuel + 1) t i (k + 1) x = (do
          let term1c ← Bfuel fuel t i k x
          let term2c ← Bfuel fuel t (i + 1) k x
          let term1a := if t (i + k + 1) - t i = 0 then 1 else x - t i
          let term1b := if t (i + k + 1) - t i = 0 then 1 else t (i + k + 1) - t i
          let term2a := if t (i + k + 2) - t (i + 1) = 0 then 1 else t (i + k + 2) - x
          let term2b := if t (i + k + 2) - t (i + 1) = 0 then 1
            else t (i + k + 2) - t (i + 1)
          pure (term1a / term1b * term1c + term2a / term2b * term2c)) from rfl]
      rw [ih k i (by omega), ih k (i + 1) (by omega)]
      simp only [Option.bind_eq_bind, Option.some_bind, B_succ]
      refine congrArg some ?_
      by_cases h1 : t (i + k + 1) - t i = 0 <;>
        by_cases h2 : t (i + k + 2) - t (i + 1) = 0 <;>
          simp only [h1, h2, if_true, if_false, ite_true, ite_false, not_false_iff] <;>
            norm_num

/-- Both knot strategies return arrays of length `count + order + 2`. -/
lemma listKnots_length (km : String) (count ord : ℕ) :
    (listKnots km count ord).length = count + ord + 2 := by
  unfold listKnots openUniformList uniformList
  split <;> rw [List.length_map, List.length_range]

/-- In-range entries of the `open_uniform` array are the totalized values. -/
lemma getD_openUniformList (count ord j : ℕ) (h : j < count + ord + 2) :
    (openUniformList count ord).getD j 0 = openUniformF count ord j := by
  unfold openUniformList
  rw [getD_map_range _ _ _ h]

/-- In-range entries of the `uniform` array are the totalized values. -/
lemma getD_uniformList (count ord j : ℕ) (h : j < count + ord + 2) :
    (uniformList count ord).getD j 0 = uniformF count ord j := by
  unfold uniformList
  rw [getD_map_range _ _ _ h]

/-- The knot arrays a successful `__init__` builds agree, within bounds, with
the idealized knot functions stored in the model. -/
lemma construct_knot_lists (img grd : List ℚ) (cp : NdArray) (ord : ℕ) (km : String)
    (mbv ed : ℚ) (cm : CentralModel)
    (hok : construct img grd cp ord km mbv ed = Except.ok cm) :
    (∀ j, j < (listKnots km cm.n cm.order).length →
        (listKnots km cm.n cm.order).getD j 0 = cm.th j)
      ∧ (∀ j, j < (listKnots km cm.m cm.order).length →
          (listKnots km cm.m cm.order).getD j 0 = cm.tv j) := by
  obtain ⟨-, -, -, -, hth, htv, -, -⟩ := construct_ok_spec img grd cp ord km mbv ed cm hok
  constructor
  · intro j hj
    rw [listKnots_length] at hj
    rw [hth]
    unfold listKnots
    split_ifs with hkm
    · rw [getD_openUniformList cm.n cm.order j (by omega)]
    · rw [getD_uniformList cm.n cm.order j (by omega)]
  · intro j hj
    rw [listKnots_length] at hj
    rw [htv]
    unfold listKnots
    split_ifs with hkm
    · rw [getD_openUniformList cm.m cm.order j (by omega)]
    · rw [getD_uniformList cm.m cm.order j (by omega)]

/-- A 2 x 2 x 3 all-zero control-point array. -/
def cpZ : NdArray := ⟨[2, 2, 3], fun _ _ _ => 0⟩

/-- A 2 x 2 x 3 control-point array with distinct non-zero entries. -/
def cp4 : NdArray := ⟨[2, 2, 3], fun i j c => (i : ℚ) + 2 * j + 3 * c + 1⟩

/-- A 4 x 2 x 3 (rectangular) all-zero control-point array. -/
def cp6 : NdArray := ⟨[4, 2, 3], fun _ _ _ => 0⟩

/-- The model `__init__` builds from `cpZ` with order 1, open-uniform knots,
image = grid = (2, 2) and the default truncation threshold 0.001. -/
def Mz : CentralModel :=
  { image_width := 2, image_height := 2, grid_width := 2, grid_height := 2
    n := 2, m := 2
    a := fun i j => (cpZ.data i j 0, cpZ.data i j 1, cpZ.data i j 2)
    order := 1
    th := openUniformF 2 1, tv := openUniformF 2 1
    min_basis_value := 1 / 1000 }

/-- As `Mz` but with the non-zero control points `cp4` and threshold 0. -/
def M4 : CentralModel :=
  { image_width := 2, image_height := 2, grid_width := 2, grid_height := 2
    n := 2, m := 2
    a := fun i j => (cp4.data i j 0, cp4.data i j 1, cp4.data i j 2)
    order := 1
    th := openUniformF 2 1, tv := openUniformF 2 1
    min_basis_value := 0 }

/-- The rectangular model `__init__` builds from `cp6` (n = 4, m = 2). -/
def M6 : CentralModel :=
  { image_width := 2, image_height := 2, grid_width := 2, grid_height := 2
    n := 4, m := 2
    a := fun i j => (cp6.data i j 0, cp6.data i j 1, cp6.data i j 2)
    order := 1
    th := openUniformF 4 1, tv := openUniformF 2 1
    min_basis_value := 1 / 1000 }

lemma construct_Mz :
    construct [2, 2] [2, 2] cpZ 1 "open_uniform" (1 / 1000) 0 = Except.ok Mz := rfl

lemma construct_M4 :
    construct [2, 2] [2, 2] cp4 1 "open_uniform" 0 0 = Except.ok M4 := rfl

lemma construct_M6 :
    construct [2, 2] [2, 2] cp6 1 "open_uniform" (1 / 1000) 0 = Except.ok M6 := rfl

/-- C1: in the basis-function evaluation `B(i, k, t, x)` with `k > 0`, a zero
denominator `t[i+k] - t[i]` (resp. `t[i+k+1] - t[i+1]`) makes that whole
fractional coefficient equal 1, so the term is the recursive sub-call
`B(i, k-1, t, x)` (resp. `B(i+1, k-1, t, x)`) unmodified; with non-zero
denominators the result is
`(x - t[i])/(t[i+k] - t[i]) * B(i, k-1) + (t[i+k+1] - x)/(t[i+k+1] - t[i+1]) * B(i+1, k-1)`. -/
theorem basis_recursion_degenerate_rule (t : ℕ → ℚ) (i k : ℕ) (x : ℚ) :
    B t i (k + 1) x =
      (if t (i + k + 1) - t i = 0 then B t i k x
       else (x - t i) / (t (i + k + 1) - t i) * B t i k x)
      + (if t (i + k + 2) - t (i + 1) = 0 then B t (i + 1) k x
         else (t (i + k + 2) - x) / (t (i + k + 2) - t (i + 1)) * B t (i + 1) k x) :=
  B_succ t i k x

/-- C3: the order-0 basis `B(i, 0, t, x)` equals 1 iff `t[i] ≤ x < t[i+1]`
(right-open interval) and equals 0 otherwise, including at internal knots. -/
theorem basis_base_case_right_open (t : ℕ → ℚ) (i : ℕ) (x : ℚ) :
    (B t i 0 x = 1 ↔ (t i ≤ x ∧ x < t (i + 1)))
      ∧ (¬ (t i ≤ x ∧ x < t (i + 1)) → B t i 0 x = 0) := by
  by_cases h : t i ≤ x ∧ x < t (i + 1)
  · rw [B_zero, if_pos h]
    exact ⟨⟨fun _ => h, fun _ => rfl⟩, fun hc => absurd h hc⟩
  · rw [B_zero, if_neg h]
    exact ⟨⟨fun hc => absurd hc (by norm_num), fun hc => absurd hc h⟩, fun _ => rfl⟩

/-- Witness for C3 at a concrete knot vector, index and parameter. -/
theorem basis_base_case_right_open_witness :
    (B (fun j => (j : ℚ)) 0 0 (1 / 2) = 1
        ↔ (((0 : ℕ) : ℚ) ≤ 1 / 2 ∧ (1 / 2 : ℚ) < ((0 + 1 : ℕ) : ℚ)))
      ∧ (¬ (((0 : ℕ) : ℚ) ≤ 1 / 2 ∧ (1 / 2 : ℚ) < ((0 + 1 : ℕ) : ℚ))
          → B (fun j => (j : ℚ)) 0 0 (1 / 2) = 0) := by
  exact basis_base_case_right_open (fun j => (j : ℚ)) 0 (1 / 2)

/-- C2: `sample(u, v)` is the truncated weighted sum over the index sets
`I = {i : Bh[i] ≥ minBasisValue}` and `J = {j : Bv[j] ≥ minBasisValue}`, with
`u' = (u + (grid_width - image_width)/2)/(grid_width - 1)`,
`v' = (v + (grid_height - image_height)/2)/(grid_height - 1)`,
`Bh[i] = B(i, order, verticalKnots, u')` and
`Bv[j] = B(j, order, horizontalKnots, v')` (the crossed pairing preserved). -/
theorem sample_eq_truncated_sum (cm : CentralModel) (u v : ℚ) :
    cm.sample u v =
      ∑ i in (Finset.range cm.n).filter
          (fun i => cm.min_basis_value ≤
            B cm.tv i cm.order
              ((u + (cm.grid_width - cm.image_width) / 2) / (cm.grid_width - 1))),
        ∑ j in (Finset.range cm.m).filter
            (fun j => cm.min_basis_value ≤
              B cm.th j cm.order
                ((v + (cm.grid_height - cm.image_height) / 2) / (cm.grid_height - 1))),
          smul3
            (B cm.tv i cm.order
                ((u + (cm.grid_width - cm.image_width) / 2) / (cm.grid_width - 1))
              * B cm.th j cm.order
                  ((v + (cm.grid_height - cm.image_height) / 2) / (cm.grid_height - 1)))
            (cm.a i j) :=
  sample_eq_sum cm u v

/-- C9: the recursion of `__B__` strictly decreases `k` and bottoms out at
`k = 0`: any recursion-depth budget exceeding `k` is enough, so the evaluator
is a total function of its arguments. -/
theorem basis_recursion_terminates (t : ℕ → ℚ) (x : ℚ) (fuel k i : ℕ) (h : k < fuel) :
    Bfuel fuel t i k x = some (B t i k x) :=
  Bfuel_eq_B t x fuel k i h

/-- Witness for C9 at a concrete order, index and fuel. -/
theorem basis_recursion_terminates_witness :
    1 < 2
      ∧ Bfuel 2 (openUniformF 2 1) 0 1 (1 / 4) = some (B (openUniformF 2 1) 0 1 (1 / 4)) :=
  ⟨by omega, basis_recursion_terminates (openUniformF 2 1) (1 / 4) 2 1 0 (by omega)⟩

/-- C4: for a constructed model with `min_basis_value ≤ 0`, the truncation
index sets keep every index (basis values are non-negative over the
non-decreasing knots both strategies produce), so `sample` equals the full
untruncated weighted sum. -/
theorem sample_nonpos_threshold_full_sum (img grd : List ℚ) (cp : NdArray) (ord : ℕ)
    (km : String) (mbv ed : ℚ) (cm : CentralModel)
    (hok : construct img grd cp ord km mbv ed = Except.ok cm)
    (hmbv : cm.min_basis_value ≤ 0) (u v : ℚ) :
    cm.sample u v =
      ∑ i in Finset.range cm.n, ∑ j in Finset.range cm.m,
        smul3
          (B cm.tv i cm.order
              ((u + (cm.grid_width - cm.image_width) / 2) / (cm.grid_width - 1))
            * B cm.th j cm.order
                ((v + (cm.grid_height - cm.image_height) / 2) / (cm.grid_height - 1)))
          (cm.a i j) := by
  obtain ⟨-, -, -, -, -, -, hmth, hmtv⟩ := construct_ok_spec img grd cp ord km mbv ed cm hok
  rw [sample_eq_sum]
  rw [Finset.filter_true_of_mem
      (fun i _ => le_trans hmbv (B_nonneg cm.tv hmtv _ cm.order i))]
  exact Finset.sum_congr rfl fun i _ =>
    Finset.sum_congr
      (Finset.filter_true_of_mem
        (fun j _ => le_trans hmbv (B_nonneg cm.th hmth _ cm.order j))) fun j _ => rfl

/-- Witness for C4 at the concrete model `M4` (threshold 0) and pixel (0, 0). -/
theorem sample_nonpos_threshold_full_sum_witness :
    construct [2, 2] [2, 2] cp4 1 "open_uniform" 0 0 = Except.ok M4
      ∧ M4.min_basis_value ≤ 0
      ∧ M4.sample 0 0 =
          ∑ i in Finset.range M4.n, ∑ j in Finset.range M4.m,
            smul3
              (B M4.tv i M4.order
                  ((0 + (M4.grid_width - M4.image_width) / 2) / (M4.grid_width - 1))
                * B M4.th j M4.order
                    ((0 + (M4.grid_height - M4.image_height) / 2) / (M4.grid_height - 1)))
              (M4.a i j) :=
  ⟨construct_M4, by decide,
    sample_nonpos_threshold_full_sum [2, 2] [2, 2] cp4 1 "open_uniform" 0 0 M4
      construct_M4 (by decide) 0 0⟩

/-- C7: construction fails (with the configuration `assert` message) exactly
when `knot_method` is unrecognized, a dimension argument is not a 2-tuple,
`control_points` is not rank-3 with trailing dimension 3, or
`order ≥ min(n, m)`; otherwise it succeeds. -/
theorem construct_validation (img grd : List ℚ) (cp : NdArray) (ord : ℕ) (km : String)
    (mbv ed : ℚ) :
    (∃ cm, construct img grd cp ord km mbv ed = Except.ok cm) ↔
      ((km = "open_uniform" ∨ km = "uniform")
        ∧ img.length = 2 ∧ grd.length = 2
        ∧ (cp.shape.length = 3 ∧ cp.shape.getD 2 0 = 3)
        ∧ ord < min (cp.shape.getD 0 0) (cp.shape.getD 1 0)) := by
  constructor
  · rintro ⟨cm, hcm⟩
    unfold construct at hcm
    split_ifs at hcm
    all_goals
      first
        | exact Except.noConfusion hcm
        | exact hcm.elim
        | exact ⟨‹km = "open_uniform" ∨ km = "uniform"›, ‹img.length = 2›,
            ‹grd.length = 2›, ‹cp.shape.length = 3 ∧ cp.shape.getD 2 0 = 3›,
            lt_min_iff.mpr ‹ord < cp.shape.getD 0 0 ∧ ord < cp.shape.getD 1 0›⟩
  · rintro ⟨hA, hB, hC, hD, hE⟩
    unfold construct
    rw [if_pos hA, if_pos hB, if_pos hC, if_pos hD, if_pos (lt_min_iff.mp hE)]
    exact ⟨_, rfl⟩

/-- C8 counterexample: with the valid open-uniform knot vector for count 2,
order 1 — the non-decreasing array `[0, 0, 1/2, 1, 1]` of length
`count + order + 2` — and the parameter `x = 3/4` strictly inside the domain
(0, 1), the sum of the `count` basis functions the sampler uses is 1/2, not 1:
the knot vector supports `count + 1` basis functions and the omitted last one
carries the remaining mass on the final span. -/
theorem partition_of_unity_fails_near_right_edge :
    openUniformList 2 1 = [0, 0, 1 / 2, 1, 1]
      ∧ ((0 : ℚ) < 3 / 4 ∧ (3 / 4 : ℚ) < 1)
      ∧ (∑ i in Finset.range 2, B (openUniformF 2 1) i 1 (3 / 4)) = 1 / 2 := by
  refine ⟨by with_unfolding_all decide, by norm_num, by with_unfolding_all decide⟩

/-- C8 amended: over any non-decreasing knot vector, the `count` basis
functions of order `ord` sum to exactly 1 at every parameter `x` lying in a
knot span `[t j, t (j+1))` with `ord ≤ j < count` — i.e. everywhere strictly
inside the domain except at and beyond the start of the last basis function's
span, `t count`. -/
theorem partition_of_unity_on_spans (t : ℕ → ℚ) (count ord j : ℕ) (x : ℚ)
    (ht : Monotone t) (h1 : ord ≤ j) (h2 : j < count) (h3 : t j ≤ x)
    (h4 : x < t (j + 1)) :
    ∑ i in Finset.range count, B t i ord x = 1 :=
  partition_global t ht count ord j x h1 h2 h3 h4

/-- Witness for the amended C8 on the open-uniform knots for count 2, order 1,
at `x = 1/4` (inside the span `[t 1, t 2) = [0, 1/2)`). -/
theorem partition_of_unity_on_spans_witness :
    (1 : ℕ) ≤ 1 ∧ (1 : ℕ) < 2
      ∧ openUniformF 2 1 1 ≤ 1 / 4 ∧ (1 / 4 : ℚ) < openUniformF 2 1 (1 + 1)
      ∧ (∑ i in Finset.range 2, B (openUniformF 2 1) i 1 (1 / 4)) = 1 :=
  ⟨le_refl 1, by omega, by with_unfolding_all decide, by with_unfolding_all decide,
    partition_of_unity_on_spans (openUniformF 2 1) 2 1 1 (1 / 4)
      (openUniformF_monotone 2 1) (le_refl 1) (by omega) (by with_unfolding_all decide)
      (by with_unfolding_all decide)⟩

/-- C5 counterexample: at the constructed model `Mz` (all-zero control
points), `sample(0, 0)` is exactly the zero vector, yet `sample_normalized`
does not fail: numpy's elementwise division silently returns a vector of NaN
components (0/0 with a RuntimeWarning, no exception). -/
theorem sample_normalized_zero_returns_nan :
    construct [2, 2] [2, 2] cpZ 1 "open_uniform" (1 / 1000) 0 = Except.ok Mz
      ∧ Mz.sample 0 0 = (0, 0, 0)
      ∧ Mz.sample_normalized 0 0 = (NpFloat.nan, NpFloat.nan, NpFloat.nan) := by
  have hs : Mz.sample 0 0 = (0, 0, 0) := by with_unfolding_all decide
  refine ⟨construct_Mz, hs, ?_⟩
  unfold CentralModel.sample_normalized
  rw [hs]
  dsimp only
  have hnorm : npNorm ((0 : ℚ), (0 : ℚ), (0 : ℚ)) = 0 := by
    unfold npNorm
    norm_num
  rw [hnorm]
  unfold npDiv
  norm_num

/-- C5 amended: `sample_normalized` never raises.  When the sampled vector is
exactly zero it silently returns the all-NaN vector (each component is the
numpy float division 0/0); when the sampled vector is non-zero it returns the
vector divided componentwise by its Euclidean norm. -/
theorem sample_normalized_cases (cm : CentralModel) (u v : ℚ) :
    cm.sample_normalized u v =
      (if cm.sample u v = ((0 : ℚ), (0 : ℚ), (0 : ℚ)) then
        (NpFloat.nan, NpFloat.nan, NpFloat.nan)
       else
        (NpFloat.fin (((cm.sample u v).1 : ℝ) / npNorm (cm.sample u v)),
         NpFloat.fin (((cm.sample u v).2.1 : ℝ) / npNorm (cm.sample u v)),
         NpFloat.fin (((cm.sample u v).2.2 : ℝ) / npNorm (cm.sample u v)))) := by
  by_cases hz : cm.sample u v = ((0 : ℚ), (0 : ℚ), (0 : ℚ))
  · rw [if_pos hz]
    unfold CentralModel.sample_normalized
    rw [hz]
    dsimp only
    have hnorm : npNorm ((0 : ℚ), (0 : ℚ), (0 : ℚ)) = 0 := by
      unfold npNorm
      norm_num
    rw [hnorm]
    unfold npDiv
    norm_num
  · rw [if_neg hz]
    unfold CentralModel.sample_normalized
    dsimp only
    have hnorm : npNorm (cm.sample u v) ≠ 0 := by
      unfold npNorm
      intro hc
      apply hz
      have hnn : (0 : ℝ) ≤ (((cm.sample u v).1 : ℝ)) ^ 2
          + (((cm.sample u v).2.1 : ℝ)) ^ 2 + (((cm.sample u v).2.2 : ℝ)) ^ 2 := by
        positivity
      have hsum : (((cm.sample u v).1 : ℝ)) ^ 2 + (((cm.sample u v).2.1 : ℝ)) ^ 2
          + (((cm.sample u v).2.2 : ℝ)) ^ 2 = 0 := by
        have := Real.sqrt_eq_zero hnn |>.mp hc
        exact this
      have h1 : ((cm.sample u v).1 : ℝ) = 0 := by
        nlinarith [sq_nonneg ((cm.sample u v).1 : ℝ), sq_nonneg ((cm.sample u v).2.1 : ℝ),
          sq_nonneg ((cm.sample u v).2.2 : ℝ)]
      have h2 : ((cm.sample u v).2.1 : ℝ) = 0 := by
        nlinarith [sq_nonneg ((cm.sample u v).1 : ℝ), sq_nonneg ((cm.sample u v).2.1 : ℝ),
          sq_nonneg ((cm.sample u v).2.2 : ℝ)]
      have h3 : ((cm.sample u v).2.2 : ℝ) = 0 := by
        nlinarith [sq_nonneg ((cm.sample u v).1 : ℝ), sq_nonneg ((cm.sample u v).2.1 : ℝ),
          sq_nonneg ((cm.sample u v).2.2 : ℝ)]
      have e1 : (cm.sample u v).1 = 0 := by exact_mod_cast h1
      have e2 : (cm.sample u v).2.1 = 0 := by exact_mod_cast h2
      have e3 : (cm.sample u v).2.2 = 0 := by exact_mod_cast h3
      exact Prod.ext e1 (Prod.ext e2 e3)
    unfold npDiv
    rw [if_neg hnorm, if_neg hnorm, if_neg hnorm]

/-- If the mapped parameter of either axis lies outside every basis support,
every term of the accumulation carries a zero basis factor, so the sum is the
zero vector. -/
lemma sample_zero_of_outside (cm : CentralModel) (hmth : Monotone cm.th)
    (hmtv : Monotone cm.tv) (u v : ℚ)
    (hout :
      (∀ i, i < cm.n →
          (u + (cm.grid_width - cm.image_width) / 2) / (cm.grid_width - 1) < cm.tv i
          ∨ cm.tv (i + cm.order + 1) ≤
              (u + (cm.grid_width - cm.image_width) / 2) / (cm.grid_width - 1))
      ∨ (∀ j, j < cm.m →
          (v + (cm.grid_height - cm.image_height) / 2) / (cm.grid_height - 1) < cm.th j
          ∨ cm.th (j + cm.order + 1) ≤
              (v + (cm.grid_height - cm.image_height) / 2) / (cm.grid_height - 1))) :
    cm.sample u v = ((0 : ℚ), (0 : ℚ), (0 : ℚ)) := by
  rw [sample_eq_sum]
  rcases hout with hu | hv
  · apply Finset.sum_eq_zero
    intro i hi
    have hilt := Finset.mem_range.mp (Finset.mem_of_mem_filter i hi)
    have hBz : B cm.tv i cm.order
        ((u + (cm.grid_width - cm.image_width) / 2) / (cm.grid_width - 1)) = 0 := by
      rcases hu i hilt with h | h
      · exact left_support cm.tv hmtv _ cm.order i h
      · exact right_support cm.tv hmtv _ cm.order i h
    apply Finset.sum_eq_zero
    intro j _
    rw [hBz]
    simp [smul3, Prod.ext_iff]
  · apply Finset.sum_eq_zero
    intro i _
    apply Finset.sum_eq_zero
    intro j hj
    have hjlt := Finset.mem_range.mp (Finset.mem_of_mem_filter j hj)
    have hBz : B cm.th j cm.order
        ((v + (cm.grid_height - cm.image_height) / 2) / (cm.grid_height - 1)) = 0 := by
      rcases hv j hjlt with h | h
      · exact left_support cm.th hmth _ cm.order j h
      · exact right_support cm.th hmth _ cm.order j h
    rw [hBz]
    simp [smul3, Prod.ext_iff]

/-- C6 counterexample: the rectangular constructed model `M6` (n = 4, m = 2,
order 1).  At pixel (1000, 0) the mapped parameter 1000 lies outside every
basis support (every support ends at or below the final knot value 1), yet
`sample` does not return the zero vector: the crossed sweep evaluates basis
index 3 against the 5-entry vertical knot array and reads index 5, so the call
fails with an out-of-range knot access (`none`, modelling Python's
IndexError) instead of silently yielding zero. -/
theorem sample_outside_support_raises :
    construct [2, 2] [2, 2] cp6 1 "open_uniform" (1 / 1000) 0 = Except.ok M6
      ∧ ((List.range M6.n).all fun i =>
          decide (M6.tv (i + M6.order + 1) ≤
            (1000 + (M6.grid_width - M6.image_width) / 2) / (M6.grid_width - 1))) = true
      ∧ M6.sampleChk (listKnots "open_uniform" M6.n M6.order)
          (listKnots "open_uniform" M6.m M6.order) 1000 0 = none := by
  refine ⟨construct_M6, by with_unfolding_all decide, by with_unfolding_all decide⟩

/-- C6 amended: for a constructed model whose crossed sweeps stay in bounds
(`n ≤ m + 1` and `m ≤ n + 1`, in particular any square grid), a pixel whose
mapped parameter lies outside every basis support on either axis — including
a parameter at or beyond the final knot value, which the right-open base
interval excludes — makes `sample` return the zero vector with no error. -/
theorem sample_outside_support_zero (img grd : List ℚ) (cp : NdArray) (ord : ℕ)
    (km : String) (mbv ed : ℚ) (cm : CentralModel)
    (hok : construct img grd cp ord km mbv ed = Except.ok cm)
    (hnm : cm.n ≤ cm.m + 1) (hmn : cm.m ≤ cm.n + 1) (u v : ℚ)
    (hout :
      (∀ i, i < cm.n →
          (u + (cm.grid_width - cm.image_width) / 2) / (cm.grid_width - 1) < cm.tv i
          ∨ cm.tv (i + cm.order + 1) ≤
              (u + (cm.grid_width - cm.image_width) / 2) / (cm.grid_width - 1))
      ∨ (∀ j, j < cm.m →
          (v + (cm.grid_height - cm.image_height) / 2) / (cm.grid_height - 1) < cm.th j
          ∨ cm.th (j + cm.order + 1) ≤
              (v + (cm.grid_height - cm.image_height) / 2) / (cm.grid_height - 1))) :
    cm.sample u v = ((0 : ℚ), (0 : ℚ), (0 : ℚ))
      ∧ cm.sampleChk (listKnots km cm.n cm.order) (listKnots km cm.m cm.order) u v
          = some ((0 : ℚ), (0 : ℚ), (0 : ℚ)) := by
  obtain ⟨-, -, -, -, -, -, hmth, hmtv⟩ :=
    construct_ok_spec img grd cp ord km mbv ed cm hok
  obtain ⟨hth, htv⟩ := construct_knot_lists img grd cp ord km mbv ed cm hok
  have hzero := sample_zero_of_outside cm hmth hmtv u v hout
  refine ⟨hzero, ?_⟩
  rw [sampleChk_eq_sample cm _ _ u v hth htv
      (fun i hi => by rw [listKnots_length]; omega)
      (fun j hj => by rw [listKnots_length]; omega), hzero]

/-- Witness for the amended C6 at the square model `Mz` and pixel (1000, 0),
whose mapped parameter 1000 is at or beyond every support. -/
theorem sample_outside_support_zero_witness :
    construct [2, 2] [2, 2] cpZ 1 "open_uniform" (1 / 1000) 0 = Except.ok Mz
      ∧ Mz.n ≤ Mz.m + 1 ∧ Mz.m ≤ Mz.n + 1
      ∧ ((List.range Mz.n).all fun i =>
          decide (Mz.tv (i + Mz.order + 1) ≤
            (1000 + (Mz.grid_width - Mz.image_width) / 2) / (Mz.grid_width - 1))) = true
      ∧ Mz.sample 1000 0 = ((0 : ℚ), (0 : ℚ), (0 : ℚ))
      ∧ Mz.sampleChk (listKnots "open_uniform" Mz.n Mz.order)
          (listKnots "open_uniform" Mz.m Mz.order) 1000 0
          = some ((0 : ℚ), (0 : ℚ), (0 : ℚ)) := by
  have h := sample_outside_support_zero [2, 2] [2, 2] cpZ 1 "open_uniform" (1 / 1000) 0 Mz
    construct_Mz (by decide) (by decide) 1000 0
    (Or.inl (by with_unfolding_all decide))
  exact ⟨construct_Mz, by decide, by decide, by with_unfolding_all decide, h.1, h.2⟩

/-- C10: for a constructed square model (n = m), both knot arrays have length
`count + order + 2` under either strategy, every knot index the crossed
sweeps access (up to `t[i + order + 1]` for the largest basis index, against
the other axis's knot array) is strictly within that length, and therefore
the bounds-checked sampler never fails: it returns exactly `sample(u, v)`. -/
theorem sample_knot_access_inbounds (img grd : List ℚ) (cp : NdArray) (ord : ℕ)
    (km : String) (mbv ed : ℚ) (cm : CentralModel)
    (hok : construct img grd cp ord km mbv ed = Except.ok cm)
    (hsq : cm.n = cm.m) (u v : ℚ) :
    (listKnots km cm.n cm.order).length = cm.n + cm.order + 2
      ∧ (listKnots km cm.m cm.order).length = cm.m + cm.order + 2
      ∧ (∀ i, i < cm.n → i + cm.order + 1 < (listKnots km cm.m cm.order).length)
      ∧ (∀ j, j < cm.m → j + cm.order + 1 < (listKnots km cm.n cm.order).length)
      ∧ cm.sampleChk (listKnots km cm.n cm.order) (listKnots km cm.m cm.order) u v
          = some (cm.sample u v) := by
  obtain ⟨hth, htv⟩ := construct_knot_lists img grd cp ord km mbv ed cm hok
  refine ⟨listKnots_length km cm.n cm.order, listKnots_length km cm.m cm.order, ?_, ?_, ?_⟩
  · intro i hi
    rw [listKnots_length]
    omega
  · intro j hj
    rw [listKnots_length]
    omega
  · exact sampleChk_eq_sample cm _ _ u v hth htv
      (fun i hi => by rw [listKnots_length]; omega)
      (fun j hj => by rw [listKnots_length]; omega)

/-- Witness for C10 at the square model `Mz` and pixel (0, 0). -/
theorem sample_knot_access_inbounds_witness :
    construct [2, 2] [2, 2] cpZ 1 "open_uniform" (1 / 1000) 0 = Except.ok Mz
      ∧ Mz.n = Mz.m
      ∧ Mz.sampleChk (listKnots "open_uniform" Mz.n Mz.order)
          (listKnots "open_uniform" Mz.m Mz.order) 0 0 = some (Mz.sample 0 0) :=
  ⟨construct_Mz, rfl,
    (sample_knot_access_inbounds [2, 2] [2, 2] cpZ 1 "open_uniform" (1 / 1000) 0 Mz
      construct_Mz rfl 0 0).2.2.2.2⟩
